import Mathlib

/-!
Shallow embedding of `src/status.rs` from the gex repository: the Status /
FileDiff / Hunk tree model, its two-level cursor navigation, the status-text
parser inside `Status::fetch`, the merge of parsed diff mappings onto the
file list, and the staging driver's command selection.

Rust mutation is modelled by explicit state passing.  `Result<(), ()>`
returns from `FileDiff::up`/`down` become a `Bool` paired with the updated
value (the Rust methods mutate their receiver even on the `Err` path, so the
updated value must be returned in both cases).  Code paths that panic
(`unwrap`, `expect`, unknown prefix) are modelled with `Option`.
-/

namespace Gex

/-- `enum DiffType` from status.rs. -/
inductive DiffType
  | Modified
  | Created
  | Untracked
  | Renamed
  | Deleted
deriving DecidableEq, Repr

/-- `struct Hunk { diffs: Vec<String>, expanded: bool }`. -/
structure Hunk where
  diffs : List String
  expanded : Bool
deriving DecidableEq, Repr

/-- `Hunk::new`: wraps the raw lines, collapsed. -/
def Hunk.new (diffs : List String) : Hunk :=
  { diffs := diffs, expanded := false }

/-- `Hunk`'s `toggle_expand` from `impl Expand for Hunk`. -/
def Hunk.toggle_expand (h : Hunk) : Hunk :=
  { h with expanded := !h.expanded }

/-- `struct FileDiff` from status.rs. -/
structure FileDiff where
  path : String
  expanded : Bool
  diff : List Hunk
  cursor : Nat
  kind : DiffType
deriving DecidableEq, Repr

/-- `FileDiff::new`: collapsed, no hunks, cursor at the whole-file row. -/
def FileDiff.new (path : String) (kind : DiffType) : FileDiff :=
  { path := path, expanded := false, diff := [], cursor := 0, kind := kind }

/-- Placeholder for out-of-range list access; under the invariants proved
below every access through it is in range, so it never contributes. -/
def dummyFile : FileDiff := FileDiff.new "" DiffType.Untracked

instance : Inhabited FileDiff := ⟨dummyFile⟩

/-- `FileDiff::len`: the effective number of selectable rows. -/
def FileDiff.len (f : FileDiff) : Nat :=
  match f.expanded with
  | true => f.diff.length + 1
  | false => 1

/-- `FileDiff`'s `toggle_expand` from `impl Expand for FileDiff`. -/
def FileDiff.toggle_expand (f : FileDiff) : FileDiff :=
  { f with expanded := !f.expanded }

/-- `FileDiff::up`: `self.cursor.checked_sub(1)`; `false` signals the
`Err(())` ("already on the first hunk") case, in which the cursor is left
unchanged. -/
def FileDiff.up (f : FileDiff) : FileDiff × Bool :=
  match f.cursor with
  | 0 => (f, false)
  | v + 1 => ({ f with cursor := v }, true)

/-- `FileDiff::down`: increments the cursor first, then signals `Err(())`
when the incremented cursor reaches `self.len()`. -/
def FileDiff.down (f : FileDiff) : FileDiff × Bool :=
  let f1 := { f with cursor := f.cursor + 1 }
  if f1.len ≤ f1.cursor then (f1, false) else (f1, true)

/-- `enum Stage` from status.rs. -/
inductive Stage
  | Add
  | Reset
deriving DecidableEq, Repr

/-- `struct Status` from status.rs. -/
structure Status where
  branch : String
  head : String
  diffs : List FileDiff
  count_untracked : Nat
  count_unstaged : Nat
  count_staged : Nat
  cursor : Nat
deriving DecidableEq, Repr

/-- `#[derive(Default)]` for `Status`. -/
def Status.default : Status :=
  { branch := "", head := "", diffs := [], count_untracked := 0,
    count_unstaged := 0, count_staged := 0, cursor := 0 }

/-- `Status::up`.  `self.diffs.get_mut(self.cursor).unwrap()` is modelled
with `List.getD`/`List.set`; under the reachable-state invariant proved
below the index is always in range, so the `unwrap` panic cannot fire. -/
def Status.up (s : Status) : Status :=
  if s.diffs = [] then s
  else
    let r := (s.diffs.getD s.cursor dummyFile).up
    let s1 := { s with diffs := s.diffs.set s.cursor r.1 }
    if r.2 then s1
    else
      match s1.cursor with
      | v + 1 =>
        let s2 := { s1 with cursor := v }
        let r2 := (s2.diffs.getD v dummyFile).up
        { s2 with diffs := s2.diffs.set v r2.1 }
      | 0 => { s1 with cursor := 0 }

/-- `Status::down`. -/
def Status.down (s : Status) : Status :=
  if s.diffs = [] then s
  else
    let r := (s.diffs.getD s.cursor dummyFile).down
    let s1 := { s with diffs := s.diffs.set s.cursor r.1 }
    if r.2 then s1
    else
      let s2 := { s1 with cursor := s1.cursor + 1 }
      if s2.diffs.length ≤ s2.cursor then
        Status.up { s2 with cursor := s2.diffs.length - 1 }
      else s2

/-- `Status::expand`: toggles the expand flag of the focused node.  The
out-of-range hunk index that would panic in Rust is a no-op `List.set`
here; theorems about `expand` carry the in-range hypothesis. -/
def Status.expand (s : Status) : Status :=
  if s.diffs = [] then s
  else
    let file := s.diffs.getD s.cursor dummyFile
    let file' :=
      if file.cursor = 0 then { file with expanded := !file.expanded }
      else
        { file with
          diff := file.diff.set (file.cursor - 1)
            (let h := file.diff.getD (file.cursor - 1) ⟨[], false⟩
             { h with expanded := !h.expanded }) }
    { s with diffs := s.diffs.set s.cursor file' }

/-! ### The status parser inside `Status::fetch` -/

/-- Rust `str::trim_start`: drop leading whitespace characters.  (Modelled
on the character list underlying the string.) -/
def trimStart (s : String) : String := String.mk (s.data.dropWhile Char.isWhitespace)

/-- Character-level search for the first occurrence of two consecutive
spaces: the text before it, and the remainder beginning with the two
spaces. -/
def splitTwoSpaces : List Char → Option (List Char × List Char)
  | ' ' :: ' ' :: rest => some ([], ' ' :: ' ' :: rest)
  | c :: rest =>
    match splitTwoSpaces rest with
    | none => none
    | some (p, r) => some (c :: p, r)
  | [] => none

/-- nom `take_until("  ")`: on success, the text before the first occurrence
of two consecutive spaces paired with the remaining input (which still
starts with the two spaces); `none` when no occurrence exists (the
`expect("strange diff output")` panic). -/
def take_until_two_spaces (s : String) : Option (String × String) :=
  match splitTwoSpaces s.data with
  | none => none
  | some (p, r) => some (String.mk p, String.mk r)

/-- nom `tag`: when `s` starts with `t`, the remaining input after it. -/
def string_tag (t s : String) : Option String :=
  if s.data.take t.data.length = t.data
  then some (String.mk (s.data.drop t.data.length))
  else none

/-- The `match prefix` arm of `fetch`'s entry parsing; `none` is the
`panic!("Unknown prefix: ...")` case. -/
def parseKind (pfx : String) : Option DiffType :=
  if pfx = "" then some DiffType.Untracked
  else if pfx = "new file:" then some DiffType.Created
  else if pfx = "modified:" then some DiffType.Modified
  else if pfx = "renamed:" then some DiffType.Renamed
  else if pfx = "deleted:" then some DiffType.Deleted
  else none

/-- One entry line of the staged / unstaged sections:
`take_until("  ")(line.trim_start())`, prefix → kind, then
`FileDiff::new(line.trim_start(), kind)` on the remainder. -/
def parseEntry (line : String) : Option FileDiff :=
  match take_until_two_spaces (trimStart line) with
  | none => none
  | some (pfx, rest) =>
    match parseKind pfx with
    | none => none
    | some k => some (FileDiff.new (trimStart rest) k)

/-- The inner `for line in lines.by_ref()` loops of `fetch`: collect lines
until a blank line (consumed) or end of input, returning the collected
entry lines and the remaining input. -/
def takeEntries : List String → List String × List String
  | [] => ([], [])
  | l :: rest =>
    if l = "" then ([], rest)
    else
      let p := takeEntries rest
      (l :: p.1, p.2)

theorem takeEntries_rest_length_le (ls : List String) :
    (takeEntries ls).2.length ≤ ls.length := by
  induction ls with
  | nil => simp [takeEntries]
  | cons l rest ih =>
    by_cases h : l = ""
    · simp [takeEntries, h]
    · simp only [takeEntries, h, if_false, List.length_cons]
      omega

/-- The body of the staged/unstaged entry loops: parse each collected entry
line in order; any entry whose parse panics aborts the whole `fetch`. -/
def parseEntries : List String → Option (List FileDiff)
  | [] => some []
  | l :: rest =>
    match parseEntry l with
    | none => none
    | some f =>
      match parseEntries rest with
      | none => none
      | some fs => some (f :: fs)

/-- The `while let Some(line) = lines.next()` loop of `fetch`.  After the
"Untracked files:" and "Changes to be committed:" headers exactly one line
is consumed by `lines.next().unwrap()`; after "Changes not staged for
commit:" exactly two are.  `none` models the `unwrap`/`expect`/`panic!`
aborts. -/
def parseSections : List String → List FileDiff → List FileDiff → List FileDiff →
    Option (List FileDiff × List FileDiff × List FileDiff)
  | [], untracked, staged, unstaged => some (untracked, staged, unstaged)
  | line :: rest, untracked, staged, unstaged =>
    if line = "Untracked files:" then
      match rest with
      | [] => none
      | _ :: rest2 =>
        let p := takeEntries rest2
        parseSections p.2
          (untracked ++ p.1.map (fun l => FileDiff.new (trimStart l) DiffType.Untracked))
          staged unstaged
    else if line = "Changes to be committed:" then
      match rest with
      | [] => none
      | _ :: rest2 =>
        let p := takeEntries rest2
        match parseEntries p.1 with
        | none => none
        | some fds => parseSections p.2 untracked (staged ++ fds) unstaged
    else if line = "Changes not staged for commit:" then
      match rest with
      | [] => none
      | _ :: rest1 =>
        match rest1 with
        | [] => none
        | _ :: rest2 =>
          let p := takeEntries rest2
          match parseEntries p.1 with
          | none => none
          | some fds => parseSections p.2 untracked staged (unstaged ++ fds)
    else parseSections rest untracked staged unstaged
termination_by ls _ _ _ => ls.length
decreasing_by
  all_goals simp_wf
  all_goals first
    | omega
    | exact Nat.lt_of_le_of_lt (takeEntries_rest_length_le _) (by omega)

/-- The status-output parsing of `fetch`: the first line must carry the
`"On branch "` tag (`branch.unwrap()` panics otherwise, and
`lines.next().expect(..)` panics on empty input), then the section loop
runs on the remaining lines.  Returns the branch name and the three entry
lists (untracked, staged, unstaged). -/
def parseStatus (lines : List String) :
    Option (String × List FileDiff × List FileDiff × List FileDiff) :=
  match lines with
  | [] => none
  | first :: rest =>
    match string_tag "On branch " first with
    | none => none
    | some branch =>
      match parseSections rest [] [] [] with
      | none => none
      | some r => some (branch, r)

/-! ### The diff-mapping merge and `Status::fetch` itself -/

/-- The hunk rebuild inside the merge loops:
`diff.iter().map(|d| Hunk::new(d.iter().map(to_string).collect())).collect()`. -/
def toHunks (d : List (List String)) : List Hunk := d.map Hunk.new

/-- The inner `for mut file in &mut unstaged` loop for one parsed diff
entry: the first file whose path equals the entry's path receives the
entry's hunks (`continue 'outer` then abandons the scan). -/
def assignFirst (files : List FileDiff) (path : String) (d : List (List String)) :
    List FileDiff :=
  match files with
  | [] => []
  | f :: fs =>
    if f.path = path then { f with diff := toHunks d } :: fs
    else f :: assignFirst fs path d

/-- The outer `for (path, diff) in diffs` merge loop over all parsed diff
entries. -/
def mergeDiffs (files : List FileDiff) (m : List (String × List (List String))) :
    List FileDiff :=
  match m with
  | [] => files
  | (path, d) :: rest => mergeDiffs (assignFirst files path d) rest

/-- Rust `trim_start_matches('"').trim_end_matches('"')` applied to the
`git log` output. -/
def trim_matches_quote (s : String) : String :=
  String.mk (((s.data.dropWhile (fun c => c = '\"')).reverse.dropWhile
    (fun c => c = '\"')).reverse)

/-- `Status::fetch`, as a pure function of the texts the external `git`
invocations produce: `statusLines` is the line-split output of `git
status`, `wdiff` / `sdiff` are the results of `parse::parse_diff` on `git
diff` / `git diff --cached` (an ordered path ↦ raw-hunk-lines mapping),
and `headRaw` is the output of the `git log` invocation.  `none` models
the panics on malformed status output. -/
def Status.fetch (s : Status) (statusLines : List String)
    (wdiff sdiff : List (String × List (List String))) (headRaw : String) :
    Option Status :=
  match parseStatus statusLines with
  | none => none
  | some (branch, untracked, staged, unstaged) =>
    let unstaged := mergeDiffs unstaged wdiff
    let staged := mergeDiffs staged sdiff
    let diffs := untracked ++ unstaged ++ staged
    some { branch := branch,
           head := trim_matches_quote headRaw,
           count_untracked := untracked.length,
           count_staged := staged.length,
           count_unstaged := unstaged.length,
           diffs := diffs,
           cursor :=
             if diffs ≠ [] ∧ diffs.length ≤ s.cursor then diffs.length - 1
             else s.cursor }

/-- `Status::new`: `Status::default()` followed by `fetch()`. -/
def Status.new (statusLines : List String)
    (wdiff sdiff : List (String × List (List String))) (headRaw : String) :
    Option Status :=
  Status.fetch Status.default statusLines wdiff sdiff headRaw

/-- The externally visible effect of `Status::stage_or_unstage` before its
final `fetch()`: either nothing (empty diff list), a one-shot `git_process`
invocation, or a spawned interactive `git` process together with the exact
byte strings written to its stdin by the writer thread. -/
inductive GitEffect
  | noop
  | run (args : List String)
  | interactive (args : List String) (stdinWrites : List String)
deriving DecidableEq, Repr

/-- The command-selection logic of `Status::stage_or_unstage` (everything
except the final unconditional `self.fetch()`), as a pure function of the
model.  `bufs = vec![b"n\n"; i - 1]; bufs.push(b"y\n")` becomes
`List.replicate (i - 1) "n\n" ++ ["y\n"]`. -/
def Status.stage_or_unstage (s : Status) (command : Stage) : GitEffect :=
  if s.diffs = [] then GitEffect.noop
  else
    let file := s.diffs.getD s.cursor dummyFile
    match file.cursor with
    | 0 =>
      GitEffect.run
        (match command with
         | Stage.Add => ["add", file.path]
         | Stage.Reset =>
           match file.kind with
           | DiffType.Deleted => ["reset", "HEAD", file.path]
           | _ => ["reset", file.path])
    | i + 1 =>
      GitEffect.interactive
        (match command with
         | Stage.Add => ["add", "-p", file.path]
         | Stage.Reset => ["reset", "-p", file.path])
        (List.replicate i "n\n" ++ ["y\n"])

/-! ### List access helper lemmas -/

theorem getD_set_self {α : Type} (l : List α) (i : Nat) (a d : α)
    (h : i < l.length) : (l.set i a).getD i d = a := by
  simp [List.getD_eq_getElem?_getD, List.getElem?_set_eq_of_lt a h]

theorem getD_set_ne {α : Type} (l : List α) {i j : Nat} (a d : α)
    (h : i ≠ j) : (l.set i a).getD j d = l.getD j d := by
  simp [List.getD_eq_getElem?_getD, List.getElem?_set_ne h]

theorem set_getD_self {α : Type} (l : List α) (i : Nat) (d : α)
    (h : i < l.length) : l.set i (l.getD i d) = l := by
  apply List.ext_getElem?
  intro j
  by_cases hj : j = i
  · subst hj
    simp [List.getD_eq_getElem?_getD, List.getElem?_eq_getElem h,
      List.getElem?_set_eq_of_lt _ h]
  · rw [List.getElem?_set_ne (fun he => hj he.symm)]

theorem getD_eq_getElem {α : Type} (l : List α) (i : Nat) (d : α)
    (h : i < l.length) : l.getD i d = l[i] := by
  simp [List.getD_eq_getElem?_getD, List.getElem?_eq_getElem h]

/-! ### Characterizations of the `FileDiff` cursor moves -/

theorem FileDiff.one_le_len (f : FileDiff) : 1 ≤ f.len := by
  unfold FileDiff.len
  cases f.expanded <;> simp

theorem FileDiff.len_set_cursor (f : FileDiff) (c : Nat) :
    ({ f with cursor := c } : FileDiff).len = f.len := rfl

theorem FileDiff.up_of_zero (f : FileDiff) (h : f.cursor = 0) :
    f.up = (f, false) := by
  unfold FileDiff.up
  rw [h]

theorem FileDiff.up_of_pos (f : FileDiff) (v : Nat) (h : f.cursor = v + 1) :
    f.up = ({ f with cursor := v }, true) := by
  unfold FileDiff.up
  rw [h]

theorem FileDiff.down_eq (f : FileDiff) :
    f.down = ({ f with cursor := f.cursor + 1 },
      !decide (f.len ≤ f.cursor + 1)) := by
  unfold FileDiff.down
  by_cases h : f.len ≤ f.cursor + 1 <;>
    simp [FileDiff.len_set_cursor, h]

/-! ### The reachable-state invariant of the two-level cursor -/

/-- Invariant on `Status` preserved by `up`/`down` (established by any
fresh fetch): the top-level cursor is in range, every file's local cursor
is at most its effective length, the selected file's local cursor is
strictly below its effective length, and every file strictly below the
selection sits at local cursor 0. -/
def Inv (s : Status) : Prop :=
  s.diffs = [] ∨
    (s.cursor < s.diffs.length ∧
     (∀ i, i < s.diffs.length →
        (s.diffs.getD i dummyFile).cursor ≤ (s.diffs.getD i dummyFile).len) ∧
     (s.diffs.getD s.cursor dummyFile).cursor <
        (s.diffs.getD s.cursor dummyFile).len ∧
     (∀ i, i < s.diffs.length → s.cursor < i →
        (s.diffs.getD i dummyFile).cursor = 0))

theorem Status.up_empty (s : Status) (h : s.diffs = []) : s.up = s := by
  unfold Status.up
  rw [if_pos h]

theorem Status.up_sel_pos (s : Status) (hne : ¬ s.diffs = []) (v : Nat)
    (hf : (s.diffs.getD s.cursor dummyFile).cursor = v + 1) :
    s.up = { s with
      diffs := s.diffs.set s.cursor { s.diffs.getD s.cursor dummyFile with cursor := v } } := by
  simp only [Status.up, hne, FileDiff.up_of_pos _ v hf, if_false, if_true]

theorem Status.up_sel_zero_pos (s : Status) (hne : ¬ s.diffs = [])
    (hc : s.cursor < s.diffs.length) (v : Nat) (hcv : s.cursor = v + 1)
    (hf : (s.diffs.getD s.cursor dummyFile).cursor = 0) :
    s.up = { s with
        cursor := v
        diffs := s.diffs.set v ((s.diffs.getD v dummyFile).up).1 } := by
  have hf' : (s.diffs.getD (v + 1) dummyFile).cursor = 0 := by
    rw [← hcv]; exact hf
  simp only [Status.up, hne, hcv, FileDiff.up_of_zero _ hf', if_false, if_true,
    set_getD_self s.diffs (v + 1) dummyFile (hcv ▸ hc)]
  simp

theorem Status.up_sel_zero_zero (s : Status) (hne : ¬ s.diffs = [])
    (hc : s.cursor < s.diffs.length) (hcv : s.cursor = 0)
    (hf : (s.diffs.getD s.cursor dummyFile).cursor = 0) :
    s.up = s := by
  have hf' : (s.diffs.getD 0 dummyFile).cursor = 0 := hcv ▸ hf
  simp only [Status.up, hne, hcv, FileDiff.up_of_zero _ hf', if_false, if_true,
    set_getD_self s.diffs 0 dummyFile (hcv ▸ hc), ite_self]
  cases s with
  | mk b hd d cu cun cst c =>
    simp_all

theorem Status.down_empty (s : Status) (h : s.diffs = []) : s.down = s := by
  unfold Status.down
  rw [if_pos h]

theorem Status.down_sel_ok (s : Status) (hne : ¬ s.diffs = [])
    (hlt : (s.diffs.getD s.cursor dummyFile).cursor + 1 <
      (s.diffs.getD s.cursor dummyFile).len) :
    s.down = { s with
        diffs := s.diffs.set s.cursor
          { s.diffs.getD s.cursor dummyFile with
              cursor := (s.diffs.getD s.cursor dummyFile).cursor + 1 } } := by
  have hcond : (!decide ((s.diffs.getD s.cursor dummyFile).len ≤
      (s.diffs.getD s.cursor dummyFile).cursor + 1)) = true := by
    simp only [Bool.not_eq_true', decide_eq_false_iff_not]
    omega
  simp only [Status.down, hne, FileDiff.down_eq, if_false, if_true]
  rw [if_pos hcond]

theorem Status.down_sel_err_mid (s : Status) (hne : ¬ s.diffs = [])
    (hge : (s.diffs.getD s.cursor dummyFile).len ≤
      (s.diffs.getD s.cursor dummyFile).cursor + 1)
    (hmid : s.cursor + 1 < s.diffs.length) :
    s.down = { s with
        cursor := s.cursor + 1
        diffs := s.diffs.set s.cursor
          { s.diffs.getD s.cursor dummyFile with
              cursor := (s.diffs.getD s.cursor dummyFile).cursor + 1 } } := by
  have hcond : ¬ ((!decide ((s.diffs.getD s.cursor dummyFile).len ≤
      (s.diffs.getD s.cursor dummyFile).cursor + 1)) = true) := by
    simp only [Bool.not_eq_true, Bool.not_eq_false', decide_eq_true_iff]
    omega
  simp only [Status.down, hne, FileDiff.down_eq, if_false, if_true]
  rw [if_neg hcond]
  simp only [List.length_set]
  rw [if_neg (by omega : ¬ (s.diffs.length ≤ s.cursor + 1))]

theorem Status.down_sel_err_end (s : Status) (hne : ¬ s.diffs = [])
    (hge : (s.diffs.getD s.cursor dummyFile).len ≤
      (s.diffs.getD s.cursor dummyFile).cursor + 1)
    (hend : s.diffs.length ≤ s.cursor + 1) :
    s.down = Status.up { s with
        cursor := s.diffs.length - 1
        diffs := s.diffs.set s.cursor
          { s.diffs.getD s.cursor dummyFile with
              cursor := (s.diffs.getD s.cursor dummyFile).cursor + 1 } } := by
  have hcond : ¬ ((!decide ((s.diffs.getD s.cursor dummyFile).len ≤
      (s.diffs.getD s.cursor dummyFile).cursor + 1)) = true) := by
    simp only [Bool.not_eq_true, Bool.not_eq_false', decide_eq_true_iff]
    omega
  simp only [Status.down, hne, FileDiff.down_eq, if_false, if_true]
  rw [if_neg hcond]
  simp only [List.length_set]
  rw [if_pos (by omega : s.diffs.length ≤ s.cursor + 1)]

theorem FileDiff.cursor_set_cursor (f : FileDiff) (c : Nat) :
    ({ f with cursor := c } : FileDiff).cursor = c := rfl

theorem FileDiff.up_fst_len (g : FileDiff) : (g.up).1.len = g.len := by
  rcases h : g.cursor with _ | v
  · rw [FileDiff.up_of_zero g h]
  · rw [FileDiff.up_of_pos g v h]
    rfl

theorem FileDiff.up_fst_cursor_le (g : FileDiff) : (g.up).1.cursor ≤ g.cursor := by
  rcases h : g.cursor with _ | v
  · rw [FileDiff.up_of_zero g h]
    exact Nat.le_of_eq h
  · rw [FileDiff.up_of_pos g v h]
    show v ≤ v + 1
    omega

theorem FileDiff.up_fst_cursor_lt (g : FileDiff) (hle : g.cursor ≤ g.len) :
    (g.up).1.cursor < g.len := by
  rcases h : g.cursor with _ | v
  · rw [FileDiff.up_of_zero g h]
    show g.cursor < g.len
    rw [h]
    exact g.one_le_len
  · rw [FileDiff.up_of_pos g v h]
    show v < g.len
    omega

/-- Preservation of the cursor invariant by `Status::up`. -/
theorem inv_up (s : Status) (h : Inv s) : Inv s.up := by
  by_cases hne : s.diffs = []
  · rwa [Status.up_empty s hne]
  rcases h with he | ⟨hc, hall, hsel, hbelow⟩
  · exact absurd he hne
  rcases hcur : (s.diffs.getD s.cursor dummyFile).cursor with _ | v
  · -- the selected file sits at local cursor 0: signal, move the top cursor
    rcases hcv : s.cursor with _ | w
    · rw [Status.up_sel_zero_zero s hne hc hcv hcur]
      exact Or.inr ⟨hc, hall, hsel, hbelow⟩
    · rw [Status.up_sel_zero_pos s hne hc w hcv hcur]
      refine Or.inr ⟨?_, ?_, ?_, ?_⟩
      · dsimp only
        simp only [List.length_set]
        omega
      · intro i hi
        dsimp only at hi ⊢
        simp only [List.length_set] at hi
        by_cases hiw : i = w
        · subst hiw
          rw [getD_set_self _ _ _ _ (by omega)]
          have h1 := FileDiff.up_fst_cursor_le (s.diffs.getD i dummyFile)
          have h2 := FileDiff.up_fst_len (s.diffs.getD i dummyFile)
          have h3 := hall i hi
          omega
        · rw [getD_set_ne _ _ _ (Ne.symm hiw)]
          exact hall i hi
      · dsimp only
        rw [getD_set_self _ _ _ _ (by omega)]
        have h2 := FileDiff.up_fst_len (s.diffs.getD w dummyFile)
        have h3 := FileDiff.up_fst_cursor_lt (s.diffs.getD w dummyFile)
          (hall w (by omega))
        omega
      · intro i hi hgt
        dsimp only at hi hgt ⊢
        simp only [List.length_set] at hi
        have hiw : ¬ i = w := by omega
        rw [getD_set_ne _ _ _ (Ne.symm hiw)]
        by_cases hisc : i = s.cursor
        · rw [hisc]
          exact hcur
        · exact hbelow i hi (by omega)
  · -- the selected file's local cursor moves from v+1 to v
    rw [Status.up_sel_pos s hne v hcur]
    refine Or.inr ⟨?_, ?_, ?_, ?_⟩
    · dsimp only
      simp only [List.length_set]
      exact hc
    · intro i hi
      dsimp only at hi ⊢
      simp only [List.length_set] at hi
      by_cases his : i = s.cursor
      · rw [his, getD_set_self _ _ _ _ (by omega)]
        simp only [FileDiff.cursor_set_cursor, FileDiff.len_set_cursor]
        omega
      · rw [getD_set_ne _ _ _ (Ne.symm his)]
        exact hall i hi
    · dsimp only
      rw [getD_set_self _ _ _ _ (by omega)]
      simp only [FileDiff.cursor_set_cursor, FileDiff.len_set_cursor]
      omega
    · intro i hi hgt
      dsimp only at hi hgt ⊢
      simp only [List.length_set] at hi
      rw [getD_set_ne _ _ _ (by omega : s.cursor ≠ i)]
      exact hbelow i hi hgt

/-- At the very bottom of the tree, `Status::down` is a round trip: the
leftover incremented local cursor is immediately undone by the `up()` call
in the clamp branch, so the whole state is unchanged. -/
theorem down_bottom_eq (s : Status) (hne : ¬ s.diffs = [])
    (hc : s.cursor < s.diffs.length)
    (_hsel : (s.diffs.getD s.cursor dummyFile).cursor <
      (s.diffs.getD s.cursor dummyFile).len)
    (hge : (s.diffs.getD s.cursor dummyFile).len ≤
      (s.diffs.getD s.cursor dummyFile).cursor + 1)
    (hend : s.diffs.length ≤ s.cursor + 1) :
    s.down = s := by
  rw [Status.down_sel_err_end s hne hge hend]
  have hlen1 : s.diffs.length - 1 = s.cursor := by omega
  rw [hlen1]
  have hlset : (s.diffs.set s.cursor
      { s.diffs.getD s.cursor dummyFile with
          cursor := (s.diffs.getD s.cursor dummyFile).cursor + 1 }).length =
      s.diffs.length := List.length_set _ _ _
  have hne2 : ¬ (s.diffs.set s.cursor
      { s.diffs.getD s.cursor dummyFile with
          cursor := (s.diffs.getD s.cursor dummyFile).cursor + 1 }) = [] := by
    intro hnil
    rw [hnil] at hlset
    simp at hlset
    omega
  rw [Status.up_sel_pos _ hne2 ((s.diffs.getD s.cursor dummyFile).cursor)
    (by
      dsimp only
      rw [getD_set_self _ _ _ _ hc])]
  dsimp only
  rw [getD_set_self _ _ _ _ hc]
  rw [List.set_set]
  have heta : ({ { s.diffs.getD s.cursor dummyFile with
      cursor := (s.diffs.getD s.cursor dummyFile).cursor + 1 } with
      cursor := (s.diffs.getD s.cursor dummyFile).cursor } : FileDiff) =
      s.diffs.getD s.cursor dummyFile := rfl
  rw [heta, set_getD_self s.diffs s.cursor dummyFile hc]

/-- Preservation of the cursor invariant by `Status::down`. -/
theorem inv_down (s : Status) (h : Inv s) : Inv s.down := by
  by_cases hne : s.diffs = []
  · rwa [Status.down_empty s hne]
  rcases h with he | ⟨hc, hall, hsel, hbelow⟩
  · exact absurd he hne
  by_cases hok : (s.diffs.getD s.cursor dummyFile).cursor + 1 <
      (s.diffs.getD s.cursor dummyFile).len
  · rw [Status.down_sel_ok s hne hok]
    refine Or.inr ⟨?_, ?_, ?_, ?_⟩
    · dsimp only
      simp only [List.length_set]
      exact hc
    · intro i hi
      dsimp only at hi ⊢
      simp only [List.length_set] at hi
      by_cases his : i = s.cursor
      · rw [his, getD_set_self _ _ _ _ (by omega)]
        simp only [FileDiff.cursor_set_cursor, FileDiff.len_set_cursor]
        omega
      · rw [getD_set_ne _ _ _ (Ne.symm his)]
        exact hall i hi
    · dsimp only
      rw [getD_set_self _ _ _ _ (by omega)]
      simp only [FileDiff.cursor_set_cursor, FileDiff.len_set_cursor]
      omega
    · intro i hi hgt
      dsimp only at hi hgt ⊢
      simp only [List.length_set] at hi
      rw [getD_set_ne _ _ _ (by omega : s.cursor ≠ i)]
      exact hbelow i hi hgt
  · have hge : (s.diffs.getD s.cursor dummyFile).len ≤
        (s.diffs.getD s.cursor dummyFile).cursor + 1 := by omega
    by_cases hmid : s.cursor + 1 < s.diffs.length
    · rw [Status.down_sel_err_mid s hne hge hmid]
      refine Or.inr ⟨?_, ?_, ?_, ?_⟩
      · dsimp only
        simp only [List.length_set]
        exact hmid
      · intro i hi
        dsimp only at hi ⊢
        simp only [List.length_set] at hi
        by_cases his : i = s.cursor
        · rw [his, getD_set_self _ _ _ _ (by omega)]
          simp only [FileDiff.cursor_set_cursor, FileDiff.len_set_cursor]
          omega
        · rw [getD_set_ne _ _ _ (Ne.symm his)]
          exact hall i hi
      · dsimp only
        rw [getD_set_ne _ _ _ (by omega : s.cursor ≠ s.cursor + 1)]
        have h0 := hbelow (s.cursor + 1) hmid (by omega)
        have h1 := (s.diffs.getD (s.cursor + 1) dummyFile).one_le_len
        omega
      · intro i hi hgt
        dsimp only at hi hgt ⊢
        simp only [List.length_set] at hi
        rw [getD_set_ne _ _ _ (by omega : s.cursor ≠ i)]
        exact hbelow i hi (by omega)
    · rw [down_bottom_eq s hne hc hsel hge (by omega)]
      exact Or.inr ⟨hc, hall, hsel, hbelow⟩


/-- One navigation key press. -/
inductive NavOp
  | up
  | down
deriving DecidableEq, Repr

/-- Apply one key press to the model. -/
def applyOp (s : Status) : NavOp → Status
  | NavOp.up => s.up
  | NavOp.down => s.down

/-- Apply a sequence of key presses, oldest first. -/
def applyOps (s : Status) : List NavOp → Status
  | [] => s
  | op :: rest => applyOps (applyOp s op) rest

theorem inv_applyOps (s : Status) (h : Inv s) (ops : List NavOp) :
    Inv (applyOps s ops) := by
  induction ops generalizing s with
  | nil => exact h
  | cons op rest ih =>
    cases op
    · exact ih _ (inv_up s h)
    · exact ih _ (inv_down s h)

/-! ### Freshness of the model built by `fetch` -/

/-- Every field a `FileDiff` has right after `FileDiff::new`. -/
def freshFile (f : FileDiff) : Prop :=
  f.expanded = false ∧ f.diff = [] ∧ f.cursor = 0

theorem freshFile_new (p : String) (k : DiffType) : freshFile (FileDiff.new p k) :=
  ⟨rfl, rfl, rfl⟩

theorem parseEntry_fresh (l : String) (f : FileDiff)
    (h : parseEntry l = some f) : freshFile f := by
  unfold parseEntry at h
  split at h
  · exact absurd h (by simp)
  · split at h
    · exact absurd h (by simp)
    · simp only [Option.some.injEq] at h
      exact h ▸ freshFile_new _ _

theorem parseEntries_fresh (ls : List String) (fs : List FileDiff)
    (h : parseEntries ls = some fs) : ∀ f ∈ fs, freshFile f := by
  induction ls generalizing fs with
  | nil =>
    unfold parseEntries at h
    simp only [Option.some.injEq] at h
    subst h
    intro f hf
    exact absurd hf (by simp)
  | cons l rest ih =>
    unfold parseEntries at h
    split at h
    · exact absurd h (by simp)
    · rename_i f0 he
      split at h
      · exact absurd h (by simp)
      · rename_i fs0 hr
        simp only [Option.some.injEq] at h
        subst h
        intro f hf
        rcases List.mem_cons.mp hf with h0 | h0
        · exact h0 ▸ parseEntry_fresh l f0 he
        · exact ih fs0 hr f h0

theorem parseSections_fresh_aux (n : Nat) :
    ∀ (lines : List String) (u st un : List FileDiff)
      (r : List FileDiff × List FileDiff × List FileDiff),
    lines.length ≤ n → parseSections lines u st un = some r →
    (∀ f ∈ u, freshFile f) → (∀ f ∈ st, freshFile f) →
    (∀ f ∈ un, freshFile f) →
    (∀ f ∈ r.1, freshFile f) ∧ (∀ f ∈ r.2.1, freshFile f) ∧
      (∀ f ∈ r.2.2, freshFile f) := by
  induction n with
  | zero =>
    intro lines u st un r hlen h hu hst hun
    have hnil : lines = [] := List.eq_nil_of_length_eq_zero (by omega)
    subst hnil
    unfold parseSections at h
    simp only [Option.some.injEq] at h
    subst h
    exact ⟨hu, hst, hun⟩
  | succ n ih =>
    intro lines u st un r hlen h hu hst hun
    match lines with
    | [] =>
      unfold parseSections at h
      simp only [Option.some.injEq] at h
      subst h
      exact ⟨hu, hst, hun⟩
    | line :: rest =>
      simp only [List.length_cons] at hlen
      unfold parseSections at h
      by_cases h1 : line = "Untracked files:"
      · rw [if_pos h1] at h
        match rest with
        | [] => exact absurd h (by simp)
        | d :: rest2 =>
          simp only [List.length_cons] at hlen
          refine ih _ _ _ _ _ ?_ h ?_ hst hun
          · have := takeEntries_rest_length_le rest2
            omega
          · intro f hf
            rcases List.mem_append.mp hf with h0 | h0
            · exact hu f h0
            · rcases List.mem_map.mp h0 with ⟨l0, _, hl0⟩
              exact hl0 ▸ freshFile_new _ _
      · rw [if_neg h1] at h
        by_cases h2 : line = "Changes to be committed:"
        · rw [if_pos h2] at h
          match rest with
          | [] => exact absurd h (by simp)
          | d :: rest2 =>
            simp only [List.length_cons] at hlen
            have h' : (match parseEntries (takeEntries rest2).1 with
                | none => none
                | some fds =>
                  parseSections (takeEntries rest2).2 u (st ++ fds) un) =
                some r := h
            rcases hp : parseEntries (takeEntries rest2).1 with _ | fds <;>
              rw [hp] at h'
            · exact absurd h' (by simp)
            · have h2' : parseSections (takeEntries rest2).2 u (st ++ fds) un =
                some r := h'
              refine ih _ _ _ _ _ ?_ h2' hu ?_ hun
              · have := takeEntries_rest_length_le rest2
                omega
              · intro f hf
                rcases List.mem_append.mp hf with h0 | h0
                · exact hst f h0
                · exact parseEntries_fresh _ _ hp f h0
        · rw [if_neg h2] at h
          by_cases h3 : line = "Changes not staged for commit:"
          · rw [if_pos h3] at h
            match rest with
            | [] => exact absurd h (by simp)
            | [d] => exact absurd h (by simp)
            | d1 :: d2 :: rest2 =>
              simp only [List.length_cons] at hlen
              have h' : (match parseEntries (takeEntries rest2).1 with
                  | none => none
                  | some fds =>
                    parseSections (takeEntries rest2).2 u st (un ++ fds)) =
                  some r := h
              rcases hp : parseEntries (takeEntries rest2).1 with _ | fds <;>
                rw [hp] at h'
              · exact absurd h' (by simp)
              · have h2' : parseSections (takeEntries rest2).2 u st (un ++ fds) =
                  some r := h'
                refine ih _ _ _ _ _ ?_ h2' hu hst ?_
                · have := takeEntries_rest_length_le rest2
                  omega
                · intro f hf
                  rcases List.mem_append.mp hf with h0 | h0
                  · exact hun f h0
                  · exact parseEntries_fresh _ _ hp f h0
          · rw [if_neg h3] at h
            exact ih _ _ _ _ _ (by omega) h hu hst hun

theorem parseSections_fresh (lines : List String)
    (u st un : List FileDiff)
    (r : List FileDiff × List FileDiff × List FileDiff)
    (h : parseSections lines u st un = some r)
    (hu : ∀ f ∈ u, freshFile f) (hst : ∀ f ∈ st, freshFile f)
    (hun : ∀ f ∈ un, freshFile f) :
    (∀ f ∈ r.1, freshFile f) ∧ (∀ f ∈ r.2.1, freshFile f) ∧
      (∀ f ∈ r.2.2, freshFile f) :=
  parseSections_fresh_aux lines.length lines u st un r (Nat.le_refl _) h hu hst hun

/-! ### Properties of the diff-mapping merge -/

theorem toHunks_expanded (d : List (List String)) :
    ∀ h ∈ toHunks d, h.expanded = false := by
  intro h hh
  rcases List.mem_map.mp hh with ⟨l, _, hl⟩
  rw [← hl]
  rfl

theorem toHunks_map_diffs (d : List (List String)) :
    (toHunks d).map Hunk.diffs = d := by
  induction d with
  | nil => rfl
  | cons x xs ih =>
    show (Hunk.new x :: toHunks xs).map Hunk.diffs = x :: xs
    rw [List.map_cons, ih]
    rfl

theorem assignFirst_length (files : List FileDiff) (p : String)
    (d : List (List String)) : (assignFirst files p d).length = files.length := by
  induction files with
  | nil => rfl
  | cons g gs ih =>
    unfold assignFirst
    by_cases hp : g.path = p <;> simp [hp, ih]

theorem mergeDiffs_length (files : List FileDiff)
    (m : List (String × List (List String))) :
    (mergeDiffs files m).length = files.length := by
  induction m generalizing files with
  | nil => rfl
  | cons qe rest ih =>
    obtain ⟨q, e⟩ := qe
    unfold mergeDiffs
    rw [ih, assignFirst_length]

theorem assignFirst_path_getD (files : List FileDiff) (p : String)
    (d : List (List String)) (i : Nat) :
    ((assignFirst files p d).getD i dummyFile).path =
      (files.getD i dummyFile).path := by
  induction files generalizing i with
  | nil => rfl
  | cons g gs ih =>
    unfold assignFirst
    by_cases hp : g.path = p
    · rw [if_pos hp]
      match i with
      | 0 => rfl
      | i + 1 => simp [List.getD_cons_succ]
    · rw [if_neg hp]
      match i with
      | 0 => rfl
      | i + 1 =>
        simp only [List.getD_cons_succ]
        exact ih i

theorem assignFirst_getD_ne (files : List FileDiff) (p : String)
    (d : List (List String)) (i : Nat)
    (hne : (files.getD i dummyFile).path ≠ p) :
    (assignFirst files p d).getD i dummyFile = files.getD i dummyFile := by
  induction files generalizing i with
  | nil => rfl
  | cons g gs ih =>
    unfold assignFirst
    by_cases hp : g.path = p
    · rw [if_pos hp]
      match i with
      | 0 => exact absurd hp (by simpa using hne)
      | i + 1 => simp [List.getD_cons_succ]
    · rw [if_neg hp]
      match i with
      | 0 => rfl
      | i + 1 =>
        simp only [List.getD_cons_succ]
        exact ih i (by simpa using hne)

theorem assignFirst_getD_first (files : List FileDiff) (p : String)
    (d : List (List String)) (i : Nat)
    (hi : i < files.length)
    (hpath : (files.getD i dummyFile).path = p)
    (hfirst : ∀ j, j < i → (files.getD j dummyFile).path ≠ p) :
    (assignFirst files p d).getD i dummyFile =
      { files.getD i dummyFile with diff := toHunks d } := by
  induction files generalizing i with
  | nil => exact absurd hi (by simp)
  | cons g gs ih =>
    unfold assignFirst
    match i with
    | 0 =>
      have hp : g.path = p := by simpa using hpath
      rw [if_pos hp]
      rfl
    | i + 1 =>
      have hp : ¬ g.path = p := by
        have := hfirst 0 (by omega)
        simpa using this
      rw [if_neg hp]
      simp only [List.getD_cons_succ]
      refine ih i (by simpa using hi) (by simpa using hpath) ?_
      intro j hj
      have := hfirst (j + 1) (by omega)
      simpa using this

theorem mergeDiffs_getD_notin (files : List FileDiff)
    (m : List (String × List (List String))) (i : Nat)
    (hnot : ∀ q ∈ m.map Prod.fst, (files.getD i dummyFile).path ≠ q) :
    (mergeDiffs files m).getD i dummyFile = files.getD i dummyFile := by
  induction m generalizing files with
  | nil => rfl
  | cons qe rest ih =>
    obtain ⟨q, e⟩ := qe
    unfold mergeDiffs
    have h1 : (assignFirst files q e).getD i dummyFile = files.getD i dummyFile :=
      assignFirst_getD_ne files q e i (hnot q (by simp))
    rw [ih (assignFirst files q e) (by
      intro q' hq'
      rw [h1]
      exact hnot q' (by simp [hq']))]
    exact h1

/-- The heart of the merge step: if `(p, d)` is an entry of the parsed diff
mapping, no other entry shares the path `p`, and position `i` holds the
first file whose path is `p`, then after the merge that position holds the
same file with `d`'s hunks attached, and nothing else about it changed. -/
theorem mergeDiffs_getD_first (files : List FileDiff)
    (m : List (String × List (List String))) (p : String)
    (d : List (List String)) (i : Nat)
    (hm : (p, d) ∈ m)
    (hnodup : (m.map Prod.fst).Nodup)
    (hi : i < files.length)
    (hpath : (files.getD i dummyFile).path = p)
    (hfirst : ∀ j, j < i → (files.getD j dummyFile).path ≠ p) :
    (mergeDiffs files m).getD i dummyFile =
      { files.getD i dummyFile with diff := toHunks d } := by
  induction m generalizing files with
  | nil => exact absurd hm (by simp)
  | cons qe rest ih =>
    obtain ⟨q, e⟩ := qe
    have hnodup' : (rest.map Prod.fst).Nodup := (List.nodup_cons.mp hnodup).2
    have hqnot : q ∉ rest.map Prod.fst := (List.nodup_cons.mp hnodup).1
    unfold mergeDiffs
    rcases List.mem_cons.mp hm with heq | hmem
    · obtain ⟨hq, he⟩ := Prod.mk.injEq .. ▸ heq
      subst hq
      subst he
      have h1 : (assignFirst files p d).getD i dummyFile =
          { files.getD i dummyFile with diff := toHunks d } :=
        assignFirst_getD_first files p d i hi hpath hfirst
      rw [mergeDiffs_getD_notin (assignFirst files p d) rest i (by
        intro q' hq'
        rw [h1]
        show (files.getD i dummyFile).path ≠ q'
        rw [hpath]
        intro hpq
        exact hqnot (hpq ▸ hq'))]
      exact h1
    · have hqp : ¬ (files.getD i dummyFile).path = q := by
        rw [hpath]
        intro hpq
        apply hqnot
        rw [← hpq]
        exact List.mem_map.mpr ⟨(p, d), hmem, rfl⟩
      have h1 : (assignFirst files q e).getD i dummyFile =
          files.getD i dummyFile := assignFirst_getD_ne files q e i hqp
      rw [← h1] at hpath
      refine Eq.trans
        (ih (assignFirst files q e) hmem hnodup'
          (by rw [assignFirst_length]; exact hi) hpath ?_) (by rw [h1])
      intro j hj
      rw [assignFirst_path_getD]
      exact hfirst j hj

/-- State of a file right after the merge step of `fetch`: flags and local
cursor still at their construction defaults, all hunks collapsed. -/
def mergedFresh (f : FileDiff) : Prop :=
  f.expanded = false ∧ f.cursor = 0 ∧ ∀ h ∈ f.diff, h.expanded = false

theorem freshFile_mergedFresh (f : FileDiff) (h : freshFile f) :
    mergedFresh f := by
  obtain ⟨h1, h2, h3⟩ := h
  refine ⟨h1, h3, ?_⟩
  rw [h2]
  intro h hh
  exact absurd hh (by simp)

theorem assignFirst_mergedFresh (files : List FileDiff) (p : String)
    (d : List (List String)) (h : ∀ f ∈ files, mergedFresh f) :
    ∀ f ∈ assignFirst files p d, mergedFresh f := by
  induction files with
  | nil =>
    intro f hf
    exact absurd hf (by simp [assignFirst])
  | cons g gs ih =>
    intro f hf
    unfold assignFirst at hf
    by_cases hp : g.path = p
    · rw [if_pos hp] at hf
      rcases List.mem_cons.mp hf with h0 | h0
      · obtain ⟨he, hc, _⟩ := h g (by simp)
        rw [h0]
        exact ⟨he, hc, toHunks_expanded d⟩
      · exact h f (by simp [h0])
    · rw [if_neg hp] at hf
      rcases List.mem_cons.mp hf with h0 | h0
      · exact h0 ▸ h g (by simp)
      · exact ih (fun f hf => h f (by simp [hf])) f h0

theorem mergeDiffs_mergedFresh (files : List FileDiff)
    (m : List (String × List (List String)))
    (h : ∀ f ∈ files, mergedFresh f) :
    ∀ f ∈ mergeDiffs files m, mergedFresh f := by
  induction m generalizing files with
  | nil => exact h
  | cons qe rest ih =>
    obtain ⟨q, e⟩ := qe
    exact ih _ (assignFirst_mergedFresh files q e h)

/-! ### Characterization of `Status::fetch` -/

/-- Everything `fetch` produces, in one equation bundle: the diff list is
rebuilt from the parsed sections (untracked ++ merged unstaged ++ merged
staged), the counts are the three lengths, and the cursor is the old one
clamped. -/
theorem fetch_eq (s : Status) (statusLines : List String)
    (wdiff sdiff : List (String × List (List String))) (headRaw : String)
    (t : Status)
    (h : Status.fetch s statusLines wdiff sdiff headRaw = some t) :
    ∃ branch u st un,
      parseStatus statusLines = some (branch, u, st, un) ∧
      t.branch = branch ∧
      t.head = trim_matches_quote headRaw ∧
      t.diffs = u ++ mergeDiffs un wdiff ++ mergeDiffs st sdiff ∧
      t.count_untracked = u.length ∧
      t.count_unstaged = un.length ∧
      t.count_staged = st.length ∧
      t.cursor = (if t.diffs ≠ [] ∧ t.diffs.length ≤ s.cursor
        then t.diffs.length - 1 else s.cursor) := by
  unfold Status.fetch at h
  split at h
  · exact absurd h (by simp)
  · rename_i r branch u st un hp
    simp only [Option.some.injEq] at h
    refine ⟨branch, u, st, un, hp, ?_⟩
    subst h
    refine ⟨rfl, rfl, by simp [List.append_assoc], ?_, ?_, ?_, ?_⟩
    · rfl
    · exact mergeDiffs_length un wdiff
    · exact mergeDiffs_length st sdiff
    · simp [List.append_assoc]

/-- Everything about the files of a freshly fetched model: constructed
flags and cursors, plus the cursor clamp, give the navigation invariant. -/
theorem fetch_files_mergedFresh (s : Status) (statusLines : List String)
    (wdiff sdiff : List (String × List (List String))) (headRaw : String)
    (t : Status)
    (h : Status.fetch s statusLines wdiff sdiff headRaw = some t) :
    ∀ f ∈ t.diffs, mergedFresh f := by
  obtain ⟨branch, u, st, un, hp, _, _, hd, _⟩ :=
    fetch_eq s statusLines wdiff sdiff headRaw t h
  unfold parseStatus at hp
  split at hp
  · exact absurd hp (by simp)
  · rename_i first rest
    split at hp
    · exact absurd hp (by simp)
    · split at hp
      · exact absurd hp (by simp)
      · rename_i r0 hr0
        simp only [Option.some.injEq] at hp
        have hfresh := parseSections_fresh rest [] [] [] r0 hr0
          (by intro f hf; exact absurd hf (by simp))
          (by intro f hf; exact absurd hf (by simp))
          (by intro f hf; exact absurd hf (by simp))
        have hr0eq : r0 = (u, st, un) := congrArg Prod.snd hp
        rw [hr0eq] at hfresh
        obtain ⟨hfu, hfst, hfun⟩ := hfresh
        intro f hf
        rw [hd] at hf
        rcases List.mem_append.mp hf with h0 | h0
        · rcases List.mem_append.mp h0 with h1 | h1
          · exact freshFile_mergedFresh f (hfu f h1)
          · exact mergeDiffs_mergedFresh un wdiff
              (fun g hg => freshFile_mergedFresh g (hfun g hg)) f h1
        · exact mergeDiffs_mergedFresh st sdiff
            (fun g hg => freshFile_mergedFresh g (hfst g hg)) f h0

/-- A fetched model satisfies the navigation invariant. -/
theorem inv_fetch (s : Status) (statusLines : List String)
    (wdiff sdiff : List (String × List (List String))) (headRaw : String)
    (t : Status)
    (h : Status.fetch s statusLines wdiff sdiff headRaw = some t) : Inv t := by
  by_cases hne : t.diffs = []
  · exact Or.inl hne
  obtain ⟨branch, u, st, un, hp, hb, hh, hd, hcu, hcun, hcst, hcur⟩ :=
    fetch_eq s statusLines wdiff sdiff headRaw t h
  have hfresh := fetch_files_mergedFresh s statusLines wdiff sdiff headRaw t h
  have hzero : ∀ i, i < t.diffs.length → (t.diffs.getD i dummyFile).cursor = 0 := by
    intro i hi
    have hmem : t.diffs.getD i dummyFile ∈ t.diffs := by
      rw [getD_eq_getElem _ _ _ hi]
      exact List.getElem_mem hi
    exact (hfresh _ hmem).2.1
  have hcl : t.cursor < t.diffs.length := by
    have hpos : 0 < t.diffs.length := List.length_pos.mpr hne
    rw [hcur]
    by_cases hc2 : t.diffs.length ≤ s.cursor
    · rw [if_pos ⟨hne, hc2⟩]
      omega
    · rw [if_neg (by tauto)]
      omega
  refine Or.inr ⟨hcl, ?_, ?_, ?_⟩
  · intro i hi
    rw [hzero i hi]
    exact Nat.zero_le _
  · rw [hzero t.cursor hcl]
    exact (t.diffs.getD t.cursor dummyFile).one_le_len
  · intro i hi _
    exact hzero i hi

/-- The untracked run of a fetched model: those files never receive hunks
from either diff mapping, so their hunk lists stay empty. -/
theorem fetch_untracked_diff_nil (s : Status) (statusLines : List String)
    (wdiff sdiff : List (String × List (List String))) (headRaw : String)
    (t : Status)
    (h : Status.fetch s statusLines wdiff sdiff headRaw = some t) :
    ∀ k, k < t.count_untracked → (t.diffs.getD k dummyFile).diff = [] := by
  obtain ⟨branch, u, st, un, hp, hb, hh, hd, hcu, hcun, hcst, hcur⟩ :=
    fetch_eq s statusLines wdiff sdiff headRaw t h
  intro k hk
  rw [hcu] at hk
  have hg : t.diffs.getD k dummyFile = u.getD k dummyFile := by
    rw [hd, List.append_assoc, List.getD_append _ _ _ _ hk]
  rw [hg]
  unfold parseStatus at hp
  split at hp
  · exact absurd hp (by simp)
  · rename_i first rest
    split at hp
    · exact absurd hp (by simp)
    · split at hp
      · exact absurd hp (by simp)
      · rename_i r0 hr0
        simp only [Option.some.injEq] at hp
        have hfresh := parseSections_fresh rest [] [] [] r0 hr0
          (by intro f hf; exact absurd hf (by simp))
          (by intro f hf; exact absurd hf (by simp))
          (by intro f hf; exact absurd hf (by simp))
        have hr0eq : r0 = (u, st, un) := congrArg Prod.snd hp
        rw [hr0eq] at hfresh
        have hmem : u.getD k dummyFile ∈ u := by
          rw [getD_eq_getElem _ _ _ hk]
          exact List.getElem_mem hk
        exact (hfresh.1 _ hmem).2.1

/-- `Status::stage`: stage at the current cursor (the pre-`fetch` effect). -/
def Status.stage (s : Status) : GitEffect :=
  s.stage_or_unstage Stage.Add

/-- `Status::unstage`: unstage at the current cursor (the pre-`fetch`
effect). -/
def Status.unstage (s : Status) : GitEffect :=
  s.stage_or_unstage Stage.Reset

/-! ### Claim theorems -/

/-- A freshly fetched model holding two untracked files. -/
def twoFilesStatus : Status :=
  { branch := "main", head := "",
    diffs := [FileDiff.new "a.txt" DiffType.Untracked,
              FileDiff.new "b.txt" DiffType.Untracked],
    count_untracked := 2, count_unstaged := 0, count_staged := 0, cursor := 0 }

/-- C1, counterexample: on a freshly built model with two collapsed
untracked files, a single `down()` leaves the first file's local cursor at
1 while it has 0 hunks, so the local cursor does not stay within
`[0, len(hunks)]` as the claim states. -/
theorem c1_counterexample :
    Status.new ["On branch main", "Untracked files:", "hint", "\ta.txt",
        "\tb.txt", ""] [] [] "" = some twoFilesStatus ∧
    ¬ (∀ f ∈ (applyOps twoFilesStatus [NavOp.down]).diffs,
        f.cursor ≤ f.diff.length) := by
  constructor
  · simp [Status.new, Status.fetch, parseStatus, parseSections, takeEntries,
      trimStart, string_tag, mergeDiffs, trim_matches_quote, twoFilesStatus,
      FileDiff.new, Status.default]
  · decide

/-- C1 (amended): for any sequence of `up()`/`down()` calls on a freshly
fetched model, the top-level cursor stays within `[0, len(diffs))`
(whenever `diffs` is non-empty) and every file's local cursor stays within
`[0, effective_len]`, where the effective length is `len(hunks) + 1` when
the file is expanded and `1` when collapsed (the value `effective_len`
itself is the transient leftover of a refused `down`). -/
theorem c1_bounds (s0 t : Status) (statusLines : List String)
    (wdiff sdiff : List (String × List (List String))) (headRaw : String)
    (h : Status.fetch s0 statusLines wdiff sdiff headRaw = some t)
    (ops : List NavOp) :
    (¬ (applyOps t ops).diffs = [] →
      (applyOps t ops).cursor < (applyOps t ops).diffs.length) ∧
    (∀ f ∈ (applyOps t ops).diffs, f.cursor ≤ f.len) := by
  have hinv := inv_applyOps t (inv_fetch s0 statusLines wdiff sdiff headRaw t h) ops
  rcases hinv with he | ⟨hc, hall, _, _⟩
  · refine ⟨fun hne => absurd he hne, fun f hf => ?_⟩
    rw [he] at hf
    exact absurd hf (by simp)
  · refine ⟨fun _ => hc, fun f hf => ?_⟩
    rcases List.mem_iff_getElem.mp hf with ⟨i, hi, hgi⟩
    have hb := hall i hi
    rw [getD_eq_getElem _ _ _ hi, hgi] at hb
    exact hb

theorem c1_bounds_witness :
    (¬ (applyOps twoFilesStatus [NavOp.down, NavOp.down, NavOp.up]).diffs = [] →
      (applyOps twoFilesStatus [NavOp.down, NavOp.down, NavOp.up]).cursor <
        (applyOps twoFilesStatus [NavOp.down, NavOp.down, NavOp.up]).diffs.length) ∧
    (∀ f ∈ (applyOps twoFilesStatus [NavOp.down, NavOp.down, NavOp.up]).diffs,
      f.cursor ≤ f.len) :=
  c1_bounds Status.default twoFilesStatus
    ["On branch main", "Untracked files:", "hint", "\ta.txt", "\tb.txt", ""]
    [] [] ""
    (by simp [Status.fetch, parseStatus, parseSections, takeEntries, trimStart,
      string_tag, mergeDiffs, trim_matches_quote, twoFilesStatus, FileDiff.new,
      Status.default])
    [NavOp.down, NavOp.down, NavOp.up]

/-- C2: with the selected file's local cursor at `i ≥ 1`, `stage()` spawns
`git add -p path` and `unstage()` spawns `git reset -p path`, and the
writer thread sends exactly `i` newline-terminated responses: `i - 1`
declines (`"n\n"`) followed by one accept (`"y\n"`), nothing afterwards. -/
theorem c2_hunk_script (s : Status) (i : Nat)
    (hne : ¬ s.diffs = [])
    (hcur : (s.diffs.getD s.cursor dummyFile).cursor = i) (hi : 1 ≤ i) :
    s.stage = GitEffect.interactive
        ["add", "-p", (s.diffs.getD s.cursor dummyFile).path]
        (List.replicate (i - 1) "n\n" ++ ["y\n"]) ∧
    s.unstage = GitEffect.interactive
        ["reset", "-p", (s.diffs.getD s.cursor dummyFile).path]
        (List.replicate (i - 1) "n\n" ++ ["y\n"]) ∧
    (List.replicate (i - 1) "n\n" ++ ["y\n"]).length = i := by
  rcases i with _ | j
  · omega
  refine ⟨?_, ?_, ?_⟩
  · unfold Status.stage Status.stage_or_unstage
    rw [if_neg hne]
    dsimp only
    rw [hcur]
    simp
  · unfold Status.unstage Status.stage_or_unstage
    rw [if_neg hne]
    dsimp only
    rw [hcur]
    simp
  · simp

/-- Scenario C of the spec: one unstaged file with three parsed hunks,
local cursor at the second hunk. -/
def hunkStatus : Status :=
  { branch := "main", head := "",
    diffs := [{ path := "a.txt", expanded := true,
                diff := [Hunk.new ["@@ -1 +1 @@", "+x"],
                         Hunk.new ["@@ -2 +2 @@", "-y"],
                         Hunk.new ["@@ -3 +3 @@", "+z"]],
                cursor := 2, kind := DiffType.Modified }],
    count_untracked := 0, count_unstaged := 1, count_staged := 0, cursor := 0 }

theorem c2_hunk_script_witness :
    hunkStatus.stage = GitEffect.interactive
        ["add", "-p", (hunkStatus.diffs.getD hunkStatus.cursor dummyFile).path]
        (List.replicate 1 "n\n" ++ ["y\n"]) ∧
    hunkStatus.unstage = GitEffect.interactive
        ["reset", "-p", (hunkStatus.diffs.getD hunkStatus.cursor dummyFile).path]
        (List.replicate 1 "n\n" ++ ["y\n"]) ∧
    (List.replicate 1 "n\n" ++ ["y\n"]).length = 2 := by
  have h := c2_hunk_script hunkStatus 2 (by decide) (by decide) (by decide)
  exact h

/-- C8: `stage()`/`unstage()` are no-ops on an empty diff list; at local
cursor 0 they run the non-interactive `git add path` / `git reset path`,
except that unstaging a Deleted file runs `git reset HEAD path`. -/
theorem c8_whole_file (s : Status) :
    (s.diffs = [] → s.stage = GitEffect.noop ∧ s.unstage = GitEffect.noop) ∧
    (¬ s.diffs = [] → (s.diffs.getD s.cursor dummyFile).cursor = 0 →
      s.stage = GitEffect.run ["add", (s.diffs.getD s.cursor dummyFile).path] ∧
      ((s.diffs.getD s.cursor dummyFile).kind = DiffType.Deleted →
        s.unstage = GitEffect.run
          ["reset", "HEAD", (s.diffs.getD s.cursor dummyFile).path]) ∧
      (¬ (s.diffs.getD s.cursor dummyFile).kind = DiffType.Deleted →
        s.unstage = GitEffect.run
          ["reset", (s.diffs.getD s.cursor dummyFile).path])) := by
  constructor
  · intro he
    constructor
    · unfold Status.stage Status.stage_or_unstage
      rw [if_pos he]
    · unfold Status.unstage Status.stage_or_unstage
      rw [if_pos he]
  · intro hne hcur
    refine ⟨?_, ?_, ?_⟩
    · unfold Status.stage Status.stage_or_unstage
      rw [if_neg hne]
      dsimp only
      rw [hcur]
    · intro hk
      unfold Status.unstage Status.stage_or_unstage
      rw [if_neg hne]
      dsimp only
      rw [hcur, hk]
    · intro hk
      unfold Status.unstage Status.stage_or_unstage
      rw [if_neg hne]
      dsimp only
      rw [hcur]
      cases hk2 : (s.diffs.getD s.cursor dummyFile).kind <;>
        first
          | rfl
          | exact absurd hk2 hk

theorem c8_whole_file_witness :
    twoFilesStatus.stage = GitEffect.run ["add", "a.txt"] ∧
    twoFilesStatus.unstage = GitEffect.run ["reset", "a.txt"] := by
  have h := (c8_whole_file twoFilesStatus).2 (by decide) (by decide)
  exact ⟨h.1, h.2.2 (by decide)⟩

/-- C10: the two "cannot move" outcomes are asymmetric — `up` at local
cursor 0 signals with the cursor unchanged, while `down` at the last
selectable position increments first, leaving the local cursor at the
effective length; `Status::up`'s cross-file re-entry consumes exactly that
leftover, landing the newly selected file's cursor on its last selectable
position. -/
theorem c10_updown_asymmetry (f g : FileDiff) (s : Status) (w : Nat) :
    (f.cursor = 0 → f.up = (f, false)) ∧
    (g.cursor + 1 = g.len → g.down = ({ g with cursor := g.len }, false)) ∧
    (¬ s.diffs = [] → s.cursor < s.diffs.length → s.cursor = w + 1 →
      (s.diffs.getD s.cursor dummyFile).cursor = 0 →
      (s.diffs.getD w dummyFile).cursor = (s.diffs.getD w dummyFile).len →
      (s.up).cursor = w ∧
      ((s.up).diffs.getD w dummyFile).cursor =
        (s.diffs.getD w dummyFile).len - 1) := by
  refine ⟨FileDiff.up_of_zero f, ?_, ?_⟩
  · intro hg
    rw [FileDiff.down_eq]
    have hd : decide (g.len ≤ g.cursor + 1) = true := by
      simp only [decide_eq_true_iff]
      omega
    rw [hd, hg]
    rfl
  · intro hne hc hw hsel hleft
    rw [Status.up_sel_zero_pos s hne hc w hw hsel]
    dsimp only
    rw [getD_set_self _ _ _ _ (by omega)]
    have h1 := (s.diffs.getD w dummyFile).one_le_len
    constructor
    · rfl
    · rw [FileDiff.up_of_pos (s.diffs.getD w dummyFile)
        ((s.diffs.getD w dummyFile).len - 1) (by omega)]

theorem c10_updown_asymmetry_witness :
    (dummyFile.up = (dummyFile, false)) ∧
    ((dummyFile.down).1.cursor = dummyFile.len) ∧
    ((applyOps twoFilesStatus [NavOp.down]).up.cursor = 0 ∧
      (((applyOps twoFilesStatus [NavOp.down]).up.diffs.getD 0 dummyFile).cursor =
        ((applyOps twoFilesStatus [NavOp.down]).diffs.getD 0 dummyFile).len - 1)) := by
  have h := c10_updown_asymmetry dummyFile dummyFile
    (applyOps twoFilesStatus [NavOp.down]) 0
  refine ⟨h.1 (by decide), ?_, h.2.2 (by decide) (by decide) (by decide)
    (by decide) (by decide)⟩
  rw [h.2.1 (by decide)]

/-- C3: after any fetch, the three counters sum to the length of the diff
list, and the list is exactly the concatenation of the untracked run, the
merged unstaged run and the merged staged run, in that fixed order, with
each counter equal to its run's length. -/
theorem c3_partition (s t : Status) (statusLines : List String)
    (wdiff sdiff : List (String × List (List String))) (headRaw : String)
    (h : Status.fetch s statusLines wdiff sdiff headRaw = some t) :
    t.count_untracked + t.count_unstaged + t.count_staged = t.diffs.length ∧
    ∃ branch u st un,
      parseStatus statusLines = some (branch, u, st, un) ∧
      t.diffs = u ++ mergeDiffs un wdiff ++ mergeDiffs st sdiff ∧
      u.length = t.count_untracked ∧
      (mergeDiffs un wdiff).length = t.count_unstaged ∧
      (mergeDiffs st sdiff).length = t.count_staged := by
  obtain ⟨branch, u, st, un, hp, hb, hh, hd, hcu, hcun, hcst, hcur⟩ :=
    fetch_eq s statusLines wdiff sdiff headRaw t h
  have hlun : (mergeDiffs un wdiff).length = un.length := mergeDiffs_length un wdiff
  have hlst : (mergeDiffs st sdiff).length = st.length := mergeDiffs_length st sdiff
  constructor
  · rw [hd, hcu, hcun, hcst]
    simp only [List.length_append]
    omega
  · exact ⟨branch, u, st, un, hp, hd, by omega, by omega, by omega⟩

theorem c3_partition_witness :
    twoFilesStatus.count_untracked + twoFilesStatus.count_unstaged +
        twoFilesStatus.count_staged = twoFilesStatus.diffs.length ∧
    ∃ branch u st un,
      parseStatus ["On branch main", "Untracked files:", "hint", "\ta.txt",
        "\tb.txt", ""] = some (branch, u, st, un) ∧
      twoFilesStatus.diffs = u ++ mergeDiffs un [] ++ mergeDiffs st [] ∧
      u.length = twoFilesStatus.count_untracked ∧
      (mergeDiffs un []).length = twoFilesStatus.count_unstaged ∧
      (mergeDiffs st []).length = twoFilesStatus.count_staged :=
  c3_partition Status.default twoFilesStatus
    ["On branch main", "Untracked files:", "hint", "\ta.txt", "\tb.txt", ""]
    [] [] ""
    (by simp [Status.fetch, parseStatus, parseSections, takeEntries, trimStart,
      string_tag, mergeDiffs, trim_matches_quote, twoFilesStatus, FileDiff.new,
      Status.default])

/-- C6: `fetch` preserves the pre-fetch top-level cursor, clamping it to
`len(diffs) - 1` exactly when the new diff list is non-empty and the old
cursor would be out of range. -/
theorem c6_cursor_clamp (s t : Status) (statusLines : List String)
    (wdiff sdiff : List (String × List (List String))) (headRaw : String)
    (h : Status.fetch s statusLines wdiff sdiff headRaw = some t) :
    ((t.diffs = [] ∨ s.cursor < t.diffs.length) → t.cursor = s.cursor) ∧
    (¬ t.diffs = [] → t.diffs.length ≤ s.cursor →
      t.cursor = t.diffs.length - 1) := by
  obtain ⟨branch, u, st, un, hp, hb, hh, hd, hcu, hcun, hcst, hcur⟩ :=
    fetch_eq s statusLines wdiff sdiff headRaw t h
  constructor
  · intro hcase
    rw [hcur, if_neg]
    rcases hcase with he | hlt
    · intro hcon
      exact hcon.1 he
    · intro hcon
      omega
  · intro hne hge
    rw [hcur, if_pos ⟨hne, hge⟩]

theorem c6_cursor_clamp_witness :
    ((twoFilesStatus.diffs = [] ∨
        Status.default.cursor < twoFilesStatus.diffs.length) →
      twoFilesStatus.cursor = Status.default.cursor) ∧
    (¬ twoFilesStatus.diffs = [] →
      twoFilesStatus.diffs.length ≤ Status.default.cursor →
      twoFilesStatus.cursor = twoFilesStatus.diffs.length - 1) :=
  c6_cursor_clamp Status.default twoFilesStatus
    ["On branch main", "Untracked files:", "hint", "\ta.txt", "\tb.txt", ""]
    [] [] ""
    (by simp [Status.fetch, parseStatus, parseSections, takeEntries, trimStart,
      string_tag, mergeDiffs, trim_matches_quote, twoFilesStatus, FileDiff.new,
      Status.default])

theorem Status.expand_file_eq (s : Status) (hne : ¬ s.diffs = [])
    (h0 : (s.diffs.getD s.cursor dummyFile).cursor = 0) :
    s.expand = { s with
      diffs := s.diffs.set s.cursor
        { s.diffs.getD s.cursor dummyFile with
            expanded := !(s.diffs.getD s.cursor dummyFile).expanded } } := by
  unfold Status.expand
  rw [if_neg hne]
  dsimp only
  rw [if_pos h0]

theorem Status.expand_hunk_eq (s : Status) (hne : ¬ s.diffs = []) (k : Nat)
    (hk : (s.diffs.getD s.cursor dummyFile).cursor = k + 1) :
    s.expand = { s with
      diffs := s.diffs.set s.cursor
        { s.diffs.getD s.cursor dummyFile with
            diff := (s.diffs.getD s.cursor dummyFile).diff.set k
              { (s.diffs.getD s.cursor dummyFile).diff.getD k ⟨[], false⟩ with
                  expanded :=
                    !((s.diffs.getD s.cursor dummyFile).diff.getD k
                        ⟨[], false⟩).expanded } } } := by
  unfold Status.expand
  rw [if_neg hne]
  dsimp only
  rw [if_neg (by omega), hk]
  simp only [Nat.add_sub_cancel]

/-- C9: `expand()` toggles exactly one flag — the selected file's own flag
when its local cursor is 0, otherwise the flag of the hunk at local cursor
minus 1 — every other component of the model is unchanged, no refetch
happens (`expand` is a pure function of the model), and applying it twice
restores the original state. -/
theorem c9_expand (s : Status)
    (hne : ¬ s.diffs = [])
    (hc : s.cursor < s.diffs.length)
    (hhunk : (s.diffs.getD s.cursor dummyFile).cursor ≤
      (s.diffs.getD s.cursor dummyFile).diff.length) :
    (s.expand.branch = s.branch ∧ s.expand.head = s.head ∧
     s.expand.cursor = s.cursor ∧
     s.expand.count_untracked = s.count_untracked ∧
     s.expand.count_unstaged = s.count_unstaged ∧
     s.expand.count_staged = s.count_staged ∧
     s.expand.diffs.length = s.diffs.length) ∧
    (∀ j, ¬ j = s.cursor →
      s.expand.diffs.getD j dummyFile = s.diffs.getD j dummyFile) ∧
    ((s.diffs.getD s.cursor dummyFile).cursor = 0 →
      s.expand.diffs.getD s.cursor dummyFile =
        { s.diffs.getD s.cursor dummyFile with
            expanded := !(s.diffs.getD s.cursor dummyFile).expanded }) ∧
    (∀ k, (s.diffs.getD s.cursor dummyFile).cursor = k + 1 →
      s.expand.diffs.getD s.cursor dummyFile =
        { s.diffs.getD s.cursor dummyFile with
            diff := (s.diffs.getD s.cursor dummyFile).diff.set k
              { (s.diffs.getD s.cursor dummyFile).diff.getD k ⟨[], false⟩ with
                  expanded :=
                    !((s.diffs.getD s.cursor dummyFile).diff.getD k
                        ⟨[], false⟩).expanded } }) ∧
    s.expand.expand = s := by
  rcases h0 : (s.diffs.getD s.cursor dummyFile).cursor with _ | k
  · rw [Status.expand_file_eq s hne h0]
    dsimp only
    refine ⟨⟨rfl, rfl, rfl, rfl, rfl, rfl, List.length_set _ _ _⟩, ?_, ?_, ?_, ?_⟩
    · intro j hj
      exact getD_set_ne _ _ _ (fun hh => hj hh.symm)
    · intro _
      exact getD_set_self _ _ _ _ hc
    · intro k hk
      exact absurd hk (by omega)
    · have hne2 : ¬ (s.diffs.set s.cursor
          { s.diffs.getD s.cursor dummyFile with
              expanded := !(s.diffs.getD s.cursor dummyFile).expanded }) = [] := by
        intro hnil
        have := List.length_set s.diffs s.cursor
          { s.diffs.getD s.cursor dummyFile with
              expanded := !(s.diffs.getD s.cursor dummyFile).expanded }
        rw [hnil] at this
        simp at this
        rw [← this] at hc
        omega
      rw [Status.expand_file_eq _ hne2 (by
        dsimp only
        rw [getD_set_self _ _ _ _ hc]
        exact h0)]
      dsimp only
      rw [getD_set_self _ _ _ _ hc]
      simp only [Bool.not_not, List.set_set]
      rw [set_getD_self s.diffs s.cursor dummyFile hc]
  · rw [Status.expand_hunk_eq s hne k h0]
    dsimp only
    have hklt : k < (s.diffs.getD s.cursor dummyFile).diff.length := by omega
    refine ⟨⟨rfl, rfl, rfl, rfl, rfl, rfl, List.length_set _ _ _⟩, ?_, ?_, ?_, ?_⟩
    · intro j hj
      exact getD_set_ne _ _ _ (fun hh => hj hh.symm)
    · intro hz
      exact absurd hz (by omega)
    · intro k2 hk2
      have : k2 = k := by omega
      subst this
      exact getD_set_self _ _ _ _ hc
    · have hne2 : ¬ (s.diffs.set s.cursor
          { s.diffs.getD s.cursor dummyFile with
              diff := (s.diffs.getD s.cursor dummyFile).diff.set k
                { (s.diffs.getD s.cursor dummyFile).diff.getD k ⟨[], false⟩ with
                    expanded :=
                      !((s.diffs.getD s.cursor dummyFile).diff.getD k
                          ⟨[], false⟩).expanded } }) = [] := by
        intro hnil
        have := List.length_set s.diffs s.cursor
          { s.diffs.getD s.cursor dummyFile with
              diff := (s.diffs.getD s.cursor dummyFile).diff.set k
                { (s.diffs.getD s.cursor dummyFile).diff.getD k ⟨[], false⟩ with
                    expanded :=
                      !((s.diffs.getD s.cursor dummyFile).diff.getD k
                          ⟨[], false⟩).expanded } }
        rw [hnil] at this
        simp at this
        rw [← this] at hc
        omega
      rw [Status.expand_hunk_eq _ hne2 k (by
        dsimp only
        rw [getD_set_self _ _ _ _ hc]
        exact h0)]
      dsimp only
      rw [getD_set_self _ _ _ _ hc]
      simp only [getD_set_self _ _ _ _ hklt, Bool.not_not, List.set_set]
      rw [set_getD_self _ _ _ hklt, set_getD_self s.diffs s.cursor dummyFile hc]

theorem c9_expand_witness :
    (hunkStatus.expand.branch = hunkStatus.branch ∧
     hunkStatus.expand.head = hunkStatus.head ∧
     hunkStatus.expand.cursor = hunkStatus.cursor ∧
     hunkStatus.expand.count_untracked = hunkStatus.count_untracked ∧
     hunkStatus.expand.count_unstaged = hunkStatus.count_unstaged ∧
     hunkStatus.expand.count_staged = hunkStatus.count_staged ∧
     hunkStatus.expand.diffs.length = hunkStatus.diffs.length) ∧
    (∀ j, ¬ j = hunkStatus.cursor →
      hunkStatus.expand.diffs.getD j dummyFile =
        hunkStatus.diffs.getD j dummyFile) ∧
    ((hunkStatus.diffs.getD hunkStatus.cursor dummyFile).cursor = 0 →
      hunkStatus.expand.diffs.getD hunkStatus.cursor dummyFile =
        { hunkStatus.diffs.getD hunkStatus.cursor dummyFile with
            expanded :=
              !(hunkStatus.diffs.getD hunkStatus.cursor dummyFile).expanded }) ∧
    (∀ k, (hunkStatus.diffs.getD hunkStatus.cursor dummyFile).cursor = k + 1 →
      hunkStatus.expand.diffs.getD hunkStatus.cursor dummyFile =
        { hunkStatus.diffs.getD hunkStatus.cursor dummyFile with
            diff := (hunkStatus.diffs.getD hunkStatus.cursor dummyFile).diff.set k
              { (hunkStatus.diffs.getD hunkStatus.cursor dummyFile).diff.getD k
                  ⟨[], false⟩ with
                  expanded :=
                    !((hunkStatus.diffs.getD hunkStatus.cursor dummyFile).diff.getD
                        k ⟨[], false⟩).expanded } }) ∧
    hunkStatus.expand.expand = hunkStatus :=
  c9_expand hunkStatus (by decide) (by decide) (by decide)

theorem string_tag_self_append (t b : String) : string_tag t (t ++ b) = some b := by
  unfold string_tag
  rw [String.data_append, List.take_left, if_pos rfl, List.drop_left]

/-- C4, counterexample: the second line after "Changes to be committed:"
is parsed as an entry, not discarded — with input whose staged section is
header, one hint line, one entry line, and a blank, the parser returns
that entry; under the claim (two discarded lines) the staged list would be
empty. -/
theorem c4_counterexample :
    parseStatus ["On branch main", "Changes to be committed:", "hint",
        "modified:   a.txt", ""] =
      some ("main", [], [FileDiff.new "a.txt" DiffType.Modified], []) := by
  simp [parseStatus, parseSections, takeEntries, trimStart, string_tag,
    parseEntries, parseEntry, take_until_two_spaces, splitTwoSpaces, parseKind,
    FileDiff.new]

/-- C4 (amended): each recognized header is followed by descriptive lines
that are discarded unconditionally before entry lines are read until a
blank line: exactly one discarded line for the "Untracked files:" and
"Changes to be committed:" sections, and exactly two for "Changes not
staged for commit:". -/
theorem c4_discard_counts (b h1 h2 e hu : String) (f : FileDiff)
    (he : parseEntry e = some f) (hene : ¬ e = "") (hune : ¬ hu = "") :
    parseStatus [("On branch " ++ b), "Untracked files:", h1, hu, ""] =
      some (b, [FileDiff.new (trimStart hu) DiffType.Untracked], [], []) ∧
    parseStatus [("On branch " ++ b), "Changes to be committed:", h1, e, ""] =
      some (b, [], [f], []) ∧
    parseStatus [("On branch " ++ b), "Changes not staged for commit:",
        h1, h2, e, ""] =
      some (b, [], [], [f]) := by
  refine ⟨?_, ?_, ?_⟩ <;>
    simp [parseStatus, string_tag_self_append, parseSections, takeEntries,
      hene, hune, parseEntries, he]

theorem c4_discard_counts_witness :
    parseStatus [("On branch " ++ "main"), "Untracked files:", "hint",
        "u.txt", ""] =
      some ("main", [FileDiff.new (trimStart "u.txt") DiffType.Untracked],
        [], []) ∧
    parseStatus [("On branch " ++ "main"), "Changes to be committed:", "hint",
        "modified:   a.txt", ""] =
      some ("main", [], [FileDiff.new "a.txt" DiffType.Modified], []) ∧
    parseStatus [("On branch " ++ "main"), "Changes not staged for commit:",
        "hint", "hint2", "modified:   a.txt", ""] =
      some ("main", [], [], [FileDiff.new "a.txt" DiffType.Modified]) :=
  c4_discard_counts "main" "hint" "hint2" "modified:   a.txt" "u.txt"
    (FileDiff.new "a.txt" DiffType.Modified)
    (by simp [parseEntry, take_until_two_spaces, splitTwoSpaces, trimStart,
      parseKind, FileDiff.new])
    (by decide) (by decide)

/-- C5: in `fetch`, the unstaged run is `mergeDiffs` of the parsed
unstaged entries with the working-tree mapping and the staged run is
`mergeDiffs` with the staged mapping; `mergeDiffs` gives the first file
whose path exactly equals a mapping entry's path that entry's hunks with
line content preserved verbatim, leaves files whose path is absent from
the mapping untouched, and the untracked run never receives hunks. -/
theorem c5_merge_by_path (files : List FileDiff)
    (m : List (String × List (List String))) (p : String)
    (d : List (List String)) (i : Nat)
    (s t : Status) (statusLines : List String)
    (wdiff sdiff : List (String × List (List String))) (headRaw : String)
    (hm : (p, d) ∈ m)
    (hnodup : (m.map Prod.fst).Nodup)
    (hi : i < files.length)
    (hpath : (files.getD i dummyFile).path = p)
    (hfirst : ∀ j, j < i → ¬ (files.getD j dummyFile).path = p)
    (hf : Status.fetch s statusLines wdiff sdiff headRaw = some t) :
    (mergeDiffs files m).getD i dummyFile =
      { files.getD i dummyFile with diff := toHunks d } ∧
    ((mergeDiffs files m).getD i dummyFile).diff.map Hunk.diffs = d ∧
    (∀ j, (∀ q ∈ m.map Prod.fst, ¬ (files.getD j dummyFile).path = q) →
      (mergeDiffs files m).getD j dummyFile = files.getD j dummyFile) ∧
    (∃ branch u st un,
      parseStatus statusLines = some (branch, u, st, un) ∧
      t.diffs = u ++ mergeDiffs un wdiff ++ mergeDiffs st sdiff) ∧
    (∀ k, k < t.count_untracked → (t.diffs.getD k dummyFile).diff = []) := by
  have hmain := mergeDiffs_getD_first files m p d i hm hnodup hi hpath hfirst
  obtain ⟨branch, u, st, un, hp, hb, hh, hd, hcu, hcun, hcst, hcur⟩ :=
    fetch_eq s statusLines wdiff sdiff headRaw t hf
  refine ⟨hmain, ?_, ?_, ⟨branch, u, st, un, hp, hd⟩,
    fetch_untracked_diff_nil s statusLines wdiff sdiff headRaw t hf⟩
  · rw [hmain]
    exact toHunks_map_diffs d
  · intro j hj
    exact mergeDiffs_getD_notin files m j hj

theorem c5_merge_by_path_witness :
    (mergeDiffs [FileDiff.new "x.txt" DiffType.Modified]
        [("x.txt", [["@@ -1 +1 @@", "+a"]])]).getD 0 dummyFile =
      { ([FileDiff.new "x.txt" DiffType.Modified]).getD 0 dummyFile with
          diff := toHunks [["@@ -1 +1 @@", "+a"]] } ∧
    ((mergeDiffs [FileDiff.new "x.txt" DiffType.Modified]
        [("x.txt", [["@@ -1 +1 @@", "+a"]])]).getD 0
          dummyFile).diff.map Hunk.diffs = [["@@ -1 +1 @@", "+a"]] ∧
    (∀ j, (∀ q ∈ [("x.txt", [["@@ -1 +1 @@", "+a"]])].map Prod.fst,
        ¬ (([FileDiff.new "x.txt" DiffType.Modified]).getD j dummyFile).path = q) →
      (mergeDiffs [FileDiff.new "x.txt" DiffType.Modified]
          [("x.txt", [["@@ -1 +1 @@", "+a"]])]).getD j dummyFile =
        ([FileDiff.new "x.txt" DiffType.Modified]).getD j dummyFile) ∧
    (∃ branch u st un,
      parseStatus ["On branch main", "Untracked files:", "hint", "\ta.txt",
        "\tb.txt", ""] = some (branch, u, st, un) ∧
      twoFilesStatus.diffs = u ++ mergeDiffs un [] ++ mergeDiffs st []) ∧
    (∀ k, k < twoFilesStatus.count_untracked →
      (twoFilesStatus.diffs.getD k dummyFile).diff = []) :=
  c5_merge_by_path [FileDiff.new "x.txt" DiffType.Modified]
    [("x.txt", [["@@ -1 +1 @@", "+a"]])] "x.txt" [["@@ -1 +1 @@", "+a"]] 0
    Status.default twoFilesStatus
    ["On branch main", "Untracked files:", "hint", "\ta.txt", "\tb.txt", ""]
    [] [] ""
    (by decide) (by decide) (by decide) (by decide)
    (fun j hj => absurd hj (by omega))
    (by simp [Status.fetch, parseStatus, parseSections, takeEntries, trimStart,
      string_tag, mergeDiffs, trim_matches_quote, twoFilesStatus, FileDiff.new,
      Status.default])

/-- A pre-fetch model holding one expanded file, to observe what survives
a fetch. -/
def expandedPre : Status :=
  { branch := "main", head := "",
    diffs := [{ path := "a.txt", expanded := true, diff := [], cursor := 0,
                kind := DiffType.Untracked }],
    count_untracked := 1, count_unstaged := 0, count_staged := 0, cursor := 0 }

/-- C7, counterexample: expand flags do not persist across a fetch — a
file expanded before the fetch comes back collapsed even though the
fetched status lists the same path. -/
theorem c7_counterexample :
    ∃ t, Status.fetch expandedPre
        ["On branch main", "Untracked files:", "hint", "\ta.txt", ""]
        [] [] "" = some t ∧
      (expandedPre.diffs.getD 0 dummyFile).path =
        (t.diffs.getD 0 dummyFile).path ∧
      (expandedPre.diffs.getD 0 dummyFile).expanded = true ∧
      (t.diffs.getD 0 dummyFile).expanded = false := by
  refine ⟨{ branch := "main"
            head := ""
            diffs := [FileDiff.new "a.txt" DiffType.Untracked]
            count_untracked := 1
            count_unstaged := 0
            count_staged := 0
            cursor := 0 }, ?_, by decide, by decide, by decide⟩
  simp [Status.fetch, parseStatus, parseSections, takeEntries, trimStart,
    string_tag, mergeDiffs, trim_matches_quote, expandedPre, FileDiff.new]

/-- C7 (amended): `fetch` rebuilds the whole `diffs` sequence from the
fetched texts alone — two fetches of the same inputs from different prior
models produce identical diff lists and counts — with every `FileDiff`
and `Hunk` back at its constructed state (collapsed, local cursor 0); the
only state that persists across a fetch is the top-level cursor, which is
preserved and clamped. -/
theorem c7_fetch_wholesale (s1 s2 t1 t2 : Status) (statusLines : List String)
    (wdiff sdiff : List (String × List (List String))) (headRaw : String)
    (h1 : Status.fetch s1 statusLines wdiff sdiff headRaw = some t1)
    (h2 : Status.fetch s2 statusLines wdiff sdiff headRaw = some t2) :
    (t1.diffs = t2.diffs ∧ t1.count_untracked = t2.count_untracked ∧
     t1.count_unstaged = t2.count_unstaged ∧
     t1.count_staged = t2.count_staged ∧
     t1.branch = t2.branch ∧ t1.head = t2.head) ∧
    (∀ f ∈ t1.diffs,
      f.expanded = false ∧ f.cursor = 0 ∧ ∀ h ∈ f.diff, h.expanded = false) ∧
    ((t1.diffs = [] ∨ s1.cursor < t1.diffs.length) → t1.cursor = s1.cursor) ∧
    (¬ t1.diffs = [] → t1.diffs.length ≤ s1.cursor →
      t1.cursor = t1.diffs.length - 1) := by
  obtain ⟨b1, u1, st1, un1, hp1, hb1, hh1, hd1, hcu1, hcun1, hcst1, hcur1⟩ :=
    fetch_eq s1 statusLines wdiff sdiff headRaw t1 h1
  obtain ⟨b2, u2, st2, un2, hp2, hb2, hh2, hd2, hcu2, hcun2, hcst2, hcur2⟩ :=
    fetch_eq s2 statusLines wdiff sdiff headRaw t2 h2
  have hsame : (b1, u1, st1, un1) = (b2, u2, st2, un2) :=
    Option.some.inj (hp1 ▸ hp2)
  obtain ⟨hb, hrest⟩ := Prod.mk.injEq .. ▸ hsame
  obtain ⟨hu, hrest2⟩ := Prod.mk.injEq .. ▸ hrest
  obtain ⟨hst, hun⟩ := Prod.mk.injEq .. ▸ hrest2
  refine ⟨⟨?_, ?_, ?_, ?_, ?_, ?_⟩,
    fetch_files_mergedFresh s1 statusLines wdiff sdiff headRaw t1 h1, ?_, ?_⟩
  · rw [hd1, hd2, hu, hst, hun]
  · rw [hcu1, hcu2, hu]
  · rw [hcun1, hcun2, hun]
  · rw [hcst1, hcst2, hst]
  · rw [hb1, hb2, hb]
  · rw [hh1, hh2]
  · intro hcase
    rw [hcur1, if_neg]
    rcases hcase with he | hlt
    · intro hcon
      exact hcon.1 he
    · intro hcon
      omega
  · intro hne hge
    rw [hcur1, if_pos ⟨hne, hge⟩]

theorem c7_fetch_wholesale_witness :
    (twoFilesStatus.diffs = twoFilesStatus.diffs ∧
     twoFilesStatus.count_untracked = twoFilesStatus.count_untracked ∧
     twoFilesStatus.count_unstaged = twoFilesStatus.count_unstaged ∧
     twoFilesStatus.count_staged = twoFilesStatus.count_staged ∧
     twoFilesStatus.branch = twoFilesStatus.branch ∧
     twoFilesStatus.head = twoFilesStatus.head) ∧
    (∀ f ∈ twoFilesStatus.diffs,
      f.expanded = false ∧ f.cursor = 0 ∧ ∀ h ∈ f.diff, h.expanded = false) ∧
    ((twoFilesStatus.diffs = [] ∨
        expandedPre.cursor < twoFilesStatus.diffs.length) →
      twoFilesStatus.cursor = expandedPre.cursor) ∧
    (¬ twoFilesStatus.diffs = [] →
      twoFilesStatus.diffs.length ≤ expandedPre.cursor →
      twoFilesStatus.cursor = twoFilesStatus.diffs.length - 1) :=
  c7_fetch_wholesale expandedPre Status.default twoFilesStatus twoFilesStatus
    ["On branch main", "Untracked files:", "hint", "\ta.txt", "\tb.txt", ""]
    [] [] ""
    (by simp [Status.fetch, parseStatus, parseSections, takeEntries, trimStart,
      string_tag, mergeDiffs, trim_matches_quote, twoFilesStatus, FileDiff.new,
      expandedPre])
    (by simp [Status.fetch, parseStatus, parseSections, takeEntries, trimStart,
      string_tag, mergeDiffs, trim_matches_quote, twoFilesStatus, FileDiff.new,
      Status.default])

end Gex
